import Mathlib

/-!
# Verification of the P2P crypto collection-and-analysis pipeline

Shallow embedding of the core computations of the repository
(`crypto_data_collectors` utilities, scrapers, orchestrator and the analysis
coordinators) together with proofs of the specification's testable claims.

Modelling conventions:
* Python floats are modelled as exact rationals (`ℚ`); `round(x, 2)` is
  modelled as exact decimal round-half-to-even.  `pandas.Series.std()`
  (sample standard deviation) needs a square root and is modelled in `ℝ`.
* Python strings are Lean `String`/`List Char`; `str.upper`/`str.lower`/
  `str.strip` are modelled with ASCII case mapping and ASCII whitespace,
  which agree with Python on the ASCII data these functions handle here.
* Dates/timestamps that are only compared or stepped are integer day
  numbers (`ℤ`); timestamps that are only stored are opaque `String`s.
* `json.dumps` (with its default `ensure_ascii=True` escaping, including
  surrogate-pair `\uXXXX` escapes) and the `json.loads` scanner for arrays
  of strings are embedded at the character-list level.
* HTTP fetches are oracle functions supplied as parameters; an exception
  raised by Python code is an `Except.error` carrying the message.
-/

namespace CryptoPipeline

/-! ## Rounding, mean, variance (`round`, `Series.mean`, `Series.std`) -/

/-- Round-half-to-even to an integer, the rounding Python's `round` applies
(on exactly representable values). -/
def roundHalfEvenInt (q : ℚ) : ℤ :=
  let f : ℤ := ⌊q⌋
  let r : ℚ := q - f
  if r < 1/2 then f
  else if 1/2 < r then f + 1
  else if f % 2 = 0 then f else f + 1

/-- Python's `round(x, 2)`: round to 2 decimal places, half to even. -/
def pyRound2 (q : ℚ) : ℚ := (roundHalfEvenInt (q * 100) : ℚ) / 100

/-- `pandas.Series.mean()` over the closes of a window. -/
def listMean (xs : List ℚ) : ℚ := xs.sum / xs.length

/-- Sample variance with `ddof = 1`, the quantity under pandas'
`Series.std()`.  The `length = 1` case (division by zero, `NaN` in pandas)
is never reached where this is used: both windows nonempty forces at least
two rows. -/
def sampleVariance (xs : List ℚ) : ℚ :=
  (xs.map (fun x => (x - listMean xs) ^ 2)).sum / ((xs.length : ℚ) - 1)

/-- `pandas.Series.std()` (ddof = 1): square root of the sample variance. -/
noncomputable def sampleStd (xs : List ℚ) : ℝ :=
  Real.sqrt ((sampleVariance xs : ℚ) : ℝ)

/-- `ExchangeRateCollector.calculate_premium` from
`utils/exchange_rates.py`: premium percentage of a P2P price over the
official rate, `0.0` when the official rate is zero. -/
def calculate_premium (crypto_price official_rate base_value : ℚ) : ℚ :=
  if official_rate = 0 then 0
  else
    let implied_usd_price := crypto_price / official_rate
    pyRound2 (((implied_usd_price - base_value) / base_value) * 100)

/-! ## Crisis-period rate sampling (`collect_crisis_period_rates`)

The loop in `utils/exchange_rates.py` walks from `start_dt` to `end_dt`
inclusive, issuing one rate request per visited date, advancing by
`7 if (end_dt - start_dt).days > 90 else 1` days.  Dates are integer day
numbers; the step only depends on the fixed endpoints, so it is constant
throughout the loop and is chosen once here. -/

/-- The date-walking loop: visit `cur, cur+step, …` while `cur ≤ endD`. -/
def sampleLoop (endD step : ℤ) (hs : 0 < step) (cur : ℤ) : List ℤ :=
  if cur ≤ endD then cur :: sampleLoop endD step hs (cur + step) else []
termination_by (endD + 1 - cur).toNat
decreasing_by omega

/-- The dates whose rates `collect_crisis_period_rates` requests: weekly
steps for ranges over 90 days, daily otherwise. -/
def crisis_sample_dates (startD endD : ℤ) : List ℤ :=
  if endD - startD > 90 then sampleLoop endD 7 (by norm_num) startD
  else sampleLoop endD 1 (by norm_num) startD

/-! ## Python string helpers (`str.strip`/`str.upper`/`str.lower`, ASCII) -/

/-- ASCII whitespace, as `str.strip` removes (on ASCII input). -/
def isPySpace (c : Char) : Bool :=
  c = ' ' ∨ c = '\t' ∨ c = '\n' ∨ c = '\x0d' ∨ c = '\x0b' ∨ c = '\x0c'

/-- `str.strip()`: drop leading and trailing whitespace. -/
def pyStrip (s : String) : String :=
  ⟨((s.data.dropWhile isPySpace).reverse.dropWhile isPySpace).reverse⟩

/-- `str.upper()` (ASCII). -/
def pyUpper (s : String) : String := ⟨s.data.map Char.toUpper⟩

/-- `str.lower()` (ASCII). -/
def pyLower (s : String) : String := ⟨s.data.map Char.toLower⟩

/-! ## Country-profile lookup (`utils/country_profiles.py`) -/

/-- The fields of a YAML country profile used by the lookups. -/
structure CountryProfile where
  country_code : String
  name : String
  fiat : String
deriving Repr, DecidableEq

/-- `get_profile_by_country_code`: first profile whose code matches the
stripped, upper-cased query; `ValueError` (modelled as `Except.error`) when
none matches. -/
def get_profile_by_country_code (profiles : List CountryProfile)
    (country_code : String) : Except String CountryProfile :=
  let search_code := pyUpper (pyStrip country_code)
  match profiles.find? (fun p => pyUpper p.country_code = search_code) with
  | some p => .ok p
  | none => .error ("No profile found for country code: " ++ country_code)

/-- `get_profile_by_country_name`: first profile whose name matches the
stripped, lower-cased query; `ValueError` when none matches. -/
def get_profile_by_country_name (profiles : List CountryProfile)
    (name : String) : Except String CountryProfile :=
  let search_name := pyLower (pyStrip name)
  match profiles.find? (fun p => pyLower p.name = search_name) with
  | some p => .ok p
  | none => .error ("No profile found for country name: " ++ name)

/-! ## `json.dumps` / `json.loads` for lists of strings

`CSVDataManager.save_raw_ads` serializes the `payment_methods` list with
`json.dumps`, and `load_raw_ads` decodes the cell with `json.loads` (a
missing cell, `pd.notna(x)` false, decodes to `[]`).  The encoder below is
CPython's `py_encode_basestring_ascii` (default `ensure_ascii=True`): the
two-character shortcuts, `\u00xx` for remaining control characters,
`\uxxxx` for non-ASCII up to the BMP and surrogate pairs beyond it.  The
scanner is `py_scanstring` plus the array scanner, specialised to arrays
of strings.  A lone surrogate escape, which CPython would keep as an
unpaired surrogate code unit, has no `Char` representation and is mapped
to `none`; the encoder never produces one. -/

/-- Lowercase hex digit, as CPython's `\uxxxx` escapes print them. -/
def hexDig (n : ℕ) : Char :=
  if n < 10 then Char.ofNat (48 + n) else Char.ofNat (87 + n)

/-- Four lowercase hex digits of `n < 0x10000`. -/
def toHex4 (n : ℕ) : List Char :=
  [hexDig (n / 4096 % 16), hexDig (n / 256 % 16), hexDig (n / 16 % 16), hexDig (n % 16)]

/-- CPython's `ensure_ascii` escaping of one character. -/
def escapeChar (c : Char) : List Char :=
  if c = '"' then ['\\', '"']
  else if c = '\\' then ['\\', '\\']
  else if c = '\x08' then ['\\', 'b']
  else if c = '\x0c' then ['\\', 'f']
  else if c = '\n' then ['\\', 'n']
  else if c = '\x0d' then ['\\', 'r']
  else if c = '\t' then ['\\', 't']
  else if c.toNat < 0x20 then '\\' :: 'u' :: toHex4 c.toNat
  else if c.toNat < 0x7f then [c]
  else if c.toNat < 0x10000 then '\\' :: 'u' :: toHex4 c.toNat
  else
    let m := c.toNat - 0x10000
    ('\\' :: 'u' :: toHex4 (0xD800 + m / 0x400)) ++ ('\\' :: 'u' :: toHex4 (0xDC00 + m % 0x400))

/-- Escape every character of a string body. -/
def escapeList (s : List Char) : List Char := s.foldr (fun c acc => escapeChar c ++ acc) []

/-- A JSON string literal: quote, escaped body, quote. -/
def encodeJsonString (s : List Char) : List Char := '"' :: escapeList s ++ ['"']

/-- Value of one hex digit (case-insensitive, as `json.loads` accepts). -/
def hexVal (c : Char) : Option ℕ :=
  if '0' ≤ c ∧ c ≤ '9' then some (c.toNat - 48)
  else if 'a' ≤ c ∧ c ≤ 'f' then some (c.toNat - 87)
  else if 'A' ≤ c ∧ c ≤ 'F' then some (c.toNat - 55)
  else none

/-- Value of a 4-hex-digit escape payload. -/
def hex4 (c1 c2 c3 c4 : Char) : Option ℕ := do
  let a ← hexVal c1
  let b ← hexVal c2
  let c ← hexVal c3
  let d ← hexVal c4
  pure (a * 4096 + b * 256 + c * 16 + d)

/-- Prepend a decoded character to a scanner result. -/
def consHd (c : Char) (o : Option (List Char × List Char)) : Option (List Char × List Char) :=
  o.map (fun p => (c :: p.1, p.2))

mutual

/-- `py_scanstring`, after the opening quote: returns the decoded body and
the input after the closing quote. -/
def parseJsonString : List Char → Option (List Char × List Char)
  | [] => none
  | c :: rest =>
    if c = '"' then some ([], rest)
    else if c = '\\' then parseEscapeSeq rest
    else consHd c (parseJsonString rest)
termination_by l => l.length

/-- The escape sequence after a backslash. -/
def parseEscapeSeq : List Char → Option (List Char × List Char)
  | [] => none
  | e :: r =>
    if e = '"' then consHd '"' (parseJsonString r)
    else if e = '\\' then consHd '\\' (parseJsonString r)
    else if e = '/' then consHd '/' (parseJsonString r)
    else if e = 'b' then consHd '\x08' (parseJsonString r)
    else if e = 'f' then consHd '\x0c' (parseJsonString r)
    else if e = 'n' then consHd '\n' (parseJsonString r)
    else if e = 'r' then consHd '\x0d' (parseJsonString r)
    else if e = 't' then consHd '\t' (parseJsonString r)
    else if e = 'u' then parseUnicodeEsc r
    else none
termination_by l => l.length

/-- A `\uXXXX` escape: a high surrogate must be followed by a low one. -/
def parseUnicodeEsc : List Char → Option (List Char × List Char)
  | c1 :: c2 :: c3 :: c4 :: r2 =>
    match hex4 c1 c2 c3 c4 with
    | none => none
    | some n =>
      if 0xD800 ≤ n ∧ n < 0xDC00 then parseLowSurrogate n r2
      else if 0xDC00 ≤ n ∧ n < 0xE000 then none
      else consHd (Char.ofNat n) (parseJsonString r2)
  | _ => none
termination_by l => l.length

/-- The low-surrogate half of a surrogate pair, combined with the high
half `n`. -/
def parseLowSurrogate (n : ℕ) : List Char → Option (List Char × List Char)
  | '\\' :: 'u' :: d1 :: d2 :: d3 :: d4 :: r3 =>
    match hex4 d1 d2 d3 d4 with
    | none => none
    | some m =>
      if 0xDC00 ≤ m ∧ m < 0xE000 then
        consHd (Char.ofNat (0x10000 + (n - 0xD800) * 0x400 + (m - 0xDC00)))
          (parseJsonString r3)
      else none
  | _ => none
termination_by l => l.length

end

/-- JSON whitespace, as the `json` scanner skips it. -/
def isJsonWs (c : Char) : Bool := c == ' ' || c == '\t' || c == '\n' || c == '\x0d'

/-- Skip JSON whitespace. -/
def skipWs (l : List Char) : List Char := l.dropWhile isJsonWs

/-- Join with `", "`, the default `json.dumps` item separator. -/
def sepJoin : List (List Char) → List Char
  | [] => []
  | [x] => x
  | x :: y :: rest => x ++ ',' :: ' ' :: sepJoin (y :: rest)

/-- `json.dumps` of a list of strings. -/
def json_dumps_chars (l : List (List Char)) : List Char :=
  '[' :: sepJoin (l.map encodeJsonString) ++ [']']

/-- The encoding of all elements after the first: `", <string>"` each.
(A proof-side view of `sepJoin`'s output; see `sepJoin_map_cons`.) -/
def sepTail (items : List (List Char)) : List Char :=
  (items.map (fun s => ',' :: ' ' :: encodeJsonString s)).flatten

/-- An inversion for `consHd`: the things a successful scan is made of. -/
theorem consHd_some_inv (c : Char) (o : Option (List Char × List Char))
    (p : List Char × List Char) (h : consHd c o = some p) :
    ∃ q, o = some q ∧ p.2 = q.2 ∧ p.1 = c :: q.1 := by
  cases o with
  | none => exact absurd h (by simp [consHd])
  | some q =>
    have h2 : (c :: q.1, q.2) = p := by simpa [consHd] using h
    exact ⟨q, rfl, by rw [← h2], by rw [← h2]⟩

/-- Unfolding a `\uXXXX` escape whose payload parses as `n`. -/
theorem parseUnicodeEsc_eq (c1 c2 c3 c4 : Char) (r2 : List Char) (n : ℕ)
    (hh : hex4 c1 c2 c3 c4 = some n) :
    parseUnicodeEsc (c1 :: c2 :: c3 :: c4 :: r2)
      = if 0xD800 ≤ n ∧ n < 0xDC00 then parseLowSurrogate n r2
        else if 0xDC00 ≤ n ∧ n < 0xE000 then none
        else consHd (Char.ofNat n) (parseJsonString r2) := by
  rw [parseUnicodeEsc, hh]

/-- Unfolding a low-surrogate escape whose payload parses as `m`. -/
theorem parseLowSurrogate_eq (n : ℕ) (d1 d2 d3 d4 : Char) (r3 : List Char) (m : ℕ)
    (hh : hex4 d1 d2 d3 d4 = some m) :
    parseLowSurrogate n ('\\' :: 'u' :: d1 :: d2 :: d3 :: d4 :: r3)
      = if 0xDC00 ≤ m ∧ m < 0xE000 then
          consHd (Char.ofNat (0x10000 + (n - 0xD800) * 0x400 + (m - 0xDC00)))
            (parseJsonString r3)
        else none := by
  rw [parseLowSurrogate, hh]

/-- A successful string scan consumes at least the closing quote.  Needed
to justify termination of the array scanner below. -/
theorem parse_consumes (l : List Char) :
    ∀ p, parseJsonString l = some p → p.2.length < l.length := by
  refine parseJsonString.induct
    (fun l => ∀ p, parseJsonString l = some p → p.2.length < l.length)
    (fun l => ∀ p, parseEscapeSeq l = some p → p.2.length < l.length)
    (fun l => ∀ p, parseUnicodeEsc l = some p → p.2.length < l.length)
    (fun n l => ∀ p, parseLowSurrogate n l = some p → p.2.length < l.length)
    ?_ ?_ ?_ ?_ ?_ ?_ ?_ ?_ ?_ ?_ ?_ ?_ ?_ ?_ ?_ ?_ ?_ ?_ ?_ ?_ ?_ ?_ ?_ ?_ l
  · intro p h
    rw [parseJsonString] at h
    exact Option.noConfusion h
  · intro rest p h
    rw [parseJsonString, if_pos rfl] at h
    have hp : p = ([], rest) := by simpa [eq_comm] using h
    subst hp
    simp
  · intro rest hne ih p h
    rw [parseJsonString, if_neg (by decide), if_pos rfl] at h
    have := ih p h
    simp only [List.length_cons]
    omega
  · intro c rest h1 h2 ih p h
    rw [parseJsonString, if_neg h1, if_neg h2] at h
    obtain ⟨q, hq, hp2, _⟩ := consHd_some_inv _ _ _ h
    have := ih q hq
    have hlen : p.2.length = q.2.length := by rw [hp2]
    simp only [List.length_cons]
    omega
  · intro p h
    rw [parseEscapeSeq] at h
    exact Option.noConfusion h
  · intro rest ih p h
    rw [parseEscapeSeq, if_pos rfl] at h
    obtain ⟨q, hq, hp2, _⟩ := consHd_some_inv _ _ _ h
    have := ih q hq
    have hlen : p.2.length = q.2.length := by rw [hp2]
    simp only [List.length_cons]
    omega
  · intro rest hne ih p h
    rw [parseEscapeSeq, if_neg (by decide), if_pos rfl] at h
    obtain ⟨q, hq, hp2, _⟩ := consHd_some_inv _ _ _ h
    have := ih q hq
    have hlen : p.2.length = q.2.length := by rw [hp2]
    simp only [List.length_cons]
    omega
  · intro rest h1 h2 ih p h
    rw [parseEscapeSeq, if_neg (by decide), if_neg (by decide), if_pos rfl] at h
    obtain ⟨q, hq, hp2, _⟩ := consHd_some_inv _ _ _ h
    have := ih q hq
    have hlen : p.2.length = q.2.length := by rw [hp2]
    simp only [List.length_cons]
    omega
  · intro rest h1 h2 h3 ih p h
    rw [parseEscapeSeq, if_neg (by decide), if_neg (by decide), if_neg (by decide),
      if_pos rfl] at h
    obtain ⟨q, hq, hp2, _⟩ := consHd_some_inv _ _ _ h
    have := ih q hq
    have hlen : p.2.length = q.2.length := by rw [hp2]
    simp only [List.length_cons]
    omega
  · intro rest h1 h2 h3 h4 ih p h
    rw [parseEscapeSeq, if_neg (by decide), if_neg (by decide), if_neg (by decide),
      if_neg (by decide), if_pos rfl] at h
    obtain ⟨q, hq, hp2, _⟩ := consHd_some_inv _ _ _ h
    have := ih q hq
    have hlen : p.2.length = q.2.length := by rw [hp2]
    simp only [List.length_cons]
    omega
  · intro rest h1 h2 h3 h4 h5 ih p h
    rw [parseEscapeSeq, if_neg (by decide), if_neg (by decide), if_neg (by decide),
      if_neg (by decide), if_neg (by decide), if_pos rfl] at h
    obtain ⟨q, hq, hp2, _⟩ := consHd_some_inv _ _ _ h
    have := ih q hq
    have hlen : p.2.length = q.2.length := by rw [hp2]
    simp only [List.length_cons]
    omega
  · intro rest h1 h2 h3 h4 h5 h6 ih p h
    rw [parseEscapeSeq, if_neg (by decide), if_neg (by decide), if_neg (by decide),
      if_neg (by decide), if_neg (by decide), if_neg (by decide), if_pos rfl] at h
    obtain ⟨q, hq, hp2, _⟩ := consHd_some_inv _ _ _ h
    have := ih q hq
    have hlen : p.2.length = q.2.length := by rw [hp2]
    simp only [List.length_cons]
    omega
  · intro rest h1 h2 h3 h4 h5 h6 h7 ih p h
    rw [parseEscapeSeq, if_neg (by decide), if_neg (by decide), if_neg (by decide),
      if_neg (by decide), if_neg (by decide), if_neg (by decide), if_neg (by decide),
      if_pos rfl] at h
    obtain ⟨q, hq, hp2, _⟩ := consHd_some_inv _ _ _ h
    have := ih q hq
    have hlen : p.2.length = q.2.length := by rw [hp2]
    simp only [List.length_cons]
    omega
  · intro rest h1 h2 h3 h4 h5 h6 h7 h8 ih p h
    rw [parseEscapeSeq, if_neg (by decide), if_neg (by decide), if_neg (by decide),
      if_neg (by decide), if_neg (by decide), if_neg (by decide), if_neg (by decide),
      if_neg (by decide), if_pos rfl] at h
    have := ih p h
    simp only [List.length_cons]
    omega
  · intro c rest h1 h2 h3 h4 h5 h6 h7 h8 h9 p h
    rw [parseEscapeSeq, if_neg h1, if_neg h2, if_neg h3, if_neg h4, if_neg h5,
      if_neg h6, if_neg h7, if_neg h8, if_neg h9] at h
    exact Option.noConfusion h
  · intro c1 c2 c3 c4 r2 hnone p h
    rw [parseUnicodeEsc, hnone] at h
    exact Option.noConfusion h
  · intro c1 c2 c3 c4 r2 n hsome hcond ih p h
    rw [parseUnicodeEsc_eq _ _ _ _ _ _ hsome, if_pos hcond] at h
    have := ih p h
    simp only [List.length_cons]
    omega
  · intro c1 c2 c3 c4 r2 n hsome hc1 hc2 p h
    rw [parseUnicodeEsc_eq _ _ _ _ _ _ hsome, if_neg hc1, if_pos hc2] at h
    exact Option.noConfusion h
  · intro c1 c2 c3 c4 r2 n hsome hc1 hc2 ih p h
    rw [parseUnicodeEsc_eq _ _ _ _ _ _ hsome, if_neg hc1, if_neg hc2] at h
    obtain ⟨q, hq, hp2, _⟩ := consHd_some_inv _ _ _ h
    have := ih q hq
    have hlen : p.2.length = q.2.length := by rw [hp2]
    simp only [List.length_cons]
    omega
  · intro x hshape p h
    rw [parseUnicodeEsc.eq_def] at h
    split at h
    · exact absurd rfl (by intro hx; exact hshape _ _ _ _ _ hx)
    · exact Option.noConfusion h
  · intro n d1 d2 d3 d4 r3 hnone p h
    rw [parseLowSurrogate, hnone] at h
    exact Option.noConfusion h
  · intro n d1 d2 d3 d4 r3 m hsome hcond ih p h
    rw [parseLowSurrogate_eq _ _ _ _ _ _ _ hsome, if_pos hcond] at h
    obtain ⟨q, hq, hp2, _⟩ := consHd_some_inv _ _ _ h
    have := ih q hq
    have hlen : p.2.length = q.2.length := by rw [hp2]
    simp only [List.length_cons]
    omega
  · intro n d1 d2 d3 d4 r3 m hsome hcond p h
    rw [parseLowSurrogate_eq _ _ _ _ _ _ _ hsome, if_neg hcond] at h
    exact Option.noConfusion h
  · intro n x hshape p h
    rw [parseLowSurrogate.eq_def] at h
    split at h
    · exact absurd rfl (by intro hx; exact hshape _ _ _ _ _ hx)
    · exact Option.noConfusion h

/-- Skipping whitespace never lengthens the input. -/
theorem skipWs_length_le (l : List Char) : (skipWs l).length ≤ l.length := by
  simp only [skipWs]
  induction l with
  | nil => simp
  | cons c t ih =>
    rw [List.dropWhile_cons]
    split
    · exact le_trans ih (Nat.le_succ _)
    · exact le_refl _

/-- The array scanner after the first element: `", <string>"` repeated,
closed by `]`.  Returns the remaining elements and the input after `]`. -/
def parseArrRest (l : List Char) : Option (List (List Char) × List Char) :=
  match hws : skipWs l with
  | ']' :: r => some ([], r)
  | ',' :: r =>
    match hws2 : skipWs r with
    | '"' :: r2 =>
      match hstr : parseJsonString r2 with
      | some (s, r3) =>
        match parseArrRest r3 with
        | some (items, rest) => some (s :: items, rest)
        | none => none
      | none => none
    | _ => none
  | _ => none
termination_by l.length
decreasing_by
  have h1 : (skipWs l).length ≤ l.length := skipWs_length_le l
  have h2 : (skipWs r).length ≤ r.length := skipWs_length_le r
  have h3 : r3.length < r2.length := parse_consumes r2 (s, r3) hstr
  rw [hws] at h1
  rw [hws2] at h2
  simp only [List.length_cons] at h1 h2
  omega

/-- `json.loads` specialised to an array of strings: `none` models a raised
`json.JSONDecodeError`. -/
def json_loads_chars (l : List Char) : Option (List (List Char)) :=
  match skipWs l with
  | '[' :: r =>
    match skipWs r with
    | ']' :: r2 => if (skipWs r2).isEmpty then some [] else none
    | '"' :: r2 =>
      match parseJsonString r2 with
      | some (s, r3) =>
        match parseArrRest r3 with
        | some (items, rest) =>
          if (skipWs rest).isEmpty then some (s :: items) else none
        | none => none
      | none => none
    | _ => none
  | _ => none

/-- `json.dumps` of a list of payment-method labels, at `String` level. -/
def json_dumps_strlist (l : List String) : String :=
  ⟨json_dumps_chars (l.map String.data)⟩

/-- `json.loads` of a payment-methods cell, at `String` level. -/
def json_loads_strlist (s : String) : Option (List String) :=
  (json_loads_chars s.data).map (fun items => items.map fun cs => ⟨cs⟩)

/-- The decode in `load_raw_ads`:
`lambda x: json.loads(x) if pd.notna(x) else []`; a missing cell is `none`
and decodes to the empty list. -/
def decode_payment_methods (cell : Option String) : Option (List String) :=
  match cell with
  | none => some []
  | some s => json_loads_strlist s

/-! ## The Advertisement record and the Source Adapters

`standardize_ad` of `scrapers/binance_p2p.py` and
`scrapers/platforms/okx_p2p.py`.  The raw payloads are the typed values of
the dictionary lookups the code performs (with their `.get(..., default)`
defaults already applied); `now` stands for
`datetime.utcnow().isoformat() + "Z"`. -/

/-- The `payment_methods` slot of an advertisement dictionary: a list at
standardization, replaced in place by its JSON text in `save_raw_ads`. -/
inductive PMValue where
  | list (methods : List String)
  | text (cell : String)
deriving Repr, DecidableEq

/-- The standardized advertisement dictionary.  `collection_id` is absent
(`none`) until `save_raw_ads` assigns it. -/
structure Advertisement where
  platform : String
  timestamp : String
  asset : String
  fiat : String
  price : ℚ
  min_amount : ℚ
  max_amount : ℚ
  available_amount : ℚ
  trade_type : String
  country_code : String
  payment_methods : PMValue
  advertiser_name : String
  completion_rate : ℚ
  order_count : ℤ
  ad_id : String
  premium_pct : Option ℚ
  collection_id : Option String
deriving Repr, DecidableEq

/-- The fields of a raw Binance ad that `standardize_ad` reads (from the
`adv` and `advertiser` sub-dictionaries). -/
structure BinanceRawAd where
  asset : String
  fiatUnit : String
  price : ℚ
  minSingleTransAmount : ℚ
  dynamicMaxSingleTransAmount : ℚ
  surplusAmount : ℚ
  tradeMethodNames : List String
  nickName : String
  monthFinishRate : ℚ
  monthOrderCount : ℤ
  advNo : String
deriving Repr, DecidableEq

/-- `BinanceP2PScraper.standardize_ad`: the caller's `trade_type` string is
copied into the record unchanged. -/
def binance_standardize_ad (now : String) (ad_data : BinanceRawAd)
    (country_code trade_type : String) : Advertisement :=
  { platform := "binance"
    timestamp := now
    asset := ad_data.asset
    fiat := ad_data.fiatUnit
    price := ad_data.price
    min_amount := ad_data.minSingleTransAmount
    max_amount := ad_data.dynamicMaxSingleTransAmount
    available_amount := ad_data.surplusAmount
    trade_type := trade_type
    country_code := country_code
    payment_methods := .list ad_data.tradeMethodNames
    advertiser_name := ad_data.nickName
    completion_rate := ad_data.monthFinishRate
    order_count := ad_data.monthOrderCount
    ad_id := ad_data.advNo
    premium_pct := none
    collection_id := none }

/-- The fields of a raw OKX ad that `standardize_ad` reads. -/
structure OKXRawAd where
  cryptoCurrency : String
  fiatCurrency : String
  price : ℚ
  minQuoteAmount : ℚ
  maxQuoteAmount : ℚ
  availableAmount : ℚ
  paymentMethodList : List String
  merchantName : String
  completionRate : ℚ
  orderCount : ℤ
  id : String
deriving Repr, DecidableEq

/-- `OKXPPScraper.standardize_ad`:
`standard_trade_type = "BUY" if trade_type.lower() == "buy" else "SELL"`. -/
def okx_standardize_ad (now : String) (ad_data : OKXRawAd)
    (country_code trade_type : String) : Advertisement :=
  let standard_trade_type := if pyLower trade_type = "buy" then "BUY" else "SELL"
  { platform := "okx"
    timestamp := now
    asset := ad_data.cryptoCurrency
    fiat := ad_data.fiatCurrency
    price := ad_data.price
    min_amount := ad_data.minQuoteAmount
    max_amount := ad_data.maxQuoteAmount
    available_amount := ad_data.availableAmount
    trade_type := standard_trade_type
    country_code := country_code
    payment_methods := .list ad_data.paymentMethodList
    advertiser_name := ad_data.merchantName
    completion_rate := ad_data.completionRate
    order_count := ad_data.orderCount
    ad_id := ad_data.id
    premium_pct := none
    collection_id := none }

/-- The pagination loop of `collect_country_data`: fetch pages while the
page counter stays within the cap, stopping at the first empty (or falsy)
response; `remaining` counts the pages the cap still allows (5 for
Binance's `while page <= 5`, 3 for OKX). `fetch tt page` is the `data`
list of the response. -/
def fetched_pages {α : Type} (fetch : String → ℕ → List α) (tt : String) :
    ℕ → ℕ → List α
  | 0, _ => []
  | remaining + 1, page =>
    let ads := fetch tt page
    if ads.isEmpty then []
    else ads ++ fetched_pages fetch tt remaining (page + 1)

/-- The mutable state of one `collect_country_data` run:
`all_ads`, `buy_count`, `sell_count`. -/
structure CollectState where
  all_ads : List Advertisement
  buy_count : ℕ
  sell_count : ℕ
deriving Repr, DecidableEq

/-- The inner loop of Binance's `collect_country_data` for one trade side:
standardize each ad, append it, and bump the matching counter
(`if trade_type == "BUY"`). -/
def binance_process_side (now country_code trade_type : String)
    (raws : List BinanceRawAd) (st : CollectState) : CollectState :=
  raws.foldl (fun st ad =>
    { all_ads := st.all_ads ++ [binance_standardize_ad now ad country_code trade_type]
      buy_count := if trade_type = "BUY" then st.buy_count + 1 else st.buy_count
      sell_count := if trade_type = "BUY" then st.sell_count else st.sell_count + 1 }) st

/-- `BinanceP2PScraper.collect_country_data`: both sides `"BUY"` then
`"SELL"`, up to 5 pages each. -/
def binance_collect_country (fetch : String → ℕ → List BinanceRawAd)
    (now country_code : String) : CollectState :=
  let st1 := binance_process_side now country_code "BUY"
    (fetched_pages fetch "BUY" 5 1) ⟨[], 0, 0⟩
  binance_process_side now country_code "SELL"
    (fetched_pages fetch "SELL" 5 1) st1

/-- The inner loop of OKX's `collect_country_data` for one trade side
(`if trade_type == "buy"`). -/
def okx_process_side (now country_code trade_type : String)
    (raws : List OKXRawAd) (st : CollectState) : CollectState :=
  raws.foldl (fun st ad =>
    { all_ads := st.all_ads ++ [okx_standardize_ad now ad country_code trade_type]
      buy_count := if trade_type = "buy" then st.buy_count + 1 else st.buy_count
      sell_count := if trade_type = "buy" then st.sell_count else st.sell_count + 1 }) st

/-- `OKXPPScraper.collect_country_data`: sides `"buy"` then `"sell"`, up to
3 pages each. -/
def okx_collect_country (fetch : String → ℕ → List OKXRawAd)
    (now country_code : String) : CollectState :=
  let st1 := okx_process_side now country_code "buy"
    (fetched_pages fetch "buy" 3 1) ⟨[], 0, 0⟩
  okx_process_side now country_code "sell"
    (fetched_pages fetch "sell" 3 1) st1

/-! ## The Canonical Store (`utils/csv_data_manager.py`) -/

/-- One row of the collection-run log. -/
structure CollectionRunLog where
  collection_id : String
  timestamp : String
  platform : String
  country_code : String
  country_name : String
  fiat_currency : String
  ads_collected : ℕ
  buy_ads : ℕ
  sell_ads : ℕ
  status : String
  error_message : String
deriving Repr, DecidableEq

/-- `CSVDataManager.log_collection_run`: the log entry holds the caller's
arguments verbatim (`now` stands for `datetime.now().isoformat()`). -/
def log_collection_run (platform country_code country_name fiat_currency : String)
    (ads_collected buy_ads sell_ads : ℕ) (status error_message : String)
    (collection_id now : String) : CollectionRunLog :=
  { collection_id := collection_id
    timestamp := now
    platform := platform
    country_code := country_code
    country_name := country_name
    fiat_currency := fiat_currency
    ads_collected := ads_collected
    buy_ads := buy_ads
    sell_ads := sell_ads
    status := status
    error_message := error_message }

/-- The log entry Binance's `collect_country_data` writes after a
successful run: `ads_collected=len(all_ads)`, `buy_ads=buy_count`,
`sell_ads=sell_count`, status `"success"`. -/
def binance_run_log (fetch : String → ℕ → List BinanceRawAd)
    (now country_code country_name fiat collection_id : String) : CollectionRunLog :=
  let st := binance_collect_country fetch now country_code
  log_collection_run "binance" country_code country_name fiat
    st.all_ads.length st.buy_count st.sell_count "success" "" collection_id now

/-- The log entry OKX's `collect_country_data` writes. -/
def okx_run_log (fetch : String → ℕ → List OKXRawAd)
    (now country_code country_name fiat collection_id : String) : CollectionRunLog :=
  let st := okx_collect_country fetch now country_code
  log_collection_run "okx" country_code country_name fiat
    st.all_ads.length st.buy_count st.sell_count "success" "" collection_id now

/-- The in-place mutation `save_raw_ads` applies to the `payment_methods`
slot of each ad dictionary: a list is replaced by its `json.dumps` text, a
non-list value is left alone. -/
def save_payment_cell (pm : PMValue) : PMValue :=
  match pm with
  | .list methods => .text (json_dumps_strlist methods)
  | .text cell => .text cell

/-- `CSVDataManager.save_raw_ads` as it acts on the caller's list of ad
dictionaries: each ad's `collection_id` is assigned and its
`payment_methods` list is replaced in place by its JSON text. -/
def save_raw_ads (ads : List Advertisement) (collection_id : String) :
    List Advertisement :=
  ads.map fun ad =>
    { ad with
        collection_id := some collection_id
        payment_methods := save_payment_cell ad.payment_methods }

/-! ## The Collection Orchestrator
(`scrapers/data_orchestrator.py`, `collect_current_snapshot`) -/

/-- One platform's entry in `collection_summary["platform_stats"]`. -/
structure PlatformStat where
  platform : String
  ads_collected : ℕ
  countries_successful : ℕ
deriving Repr, DecidableEq

/-- The summary a snapshot run returns. -/
structure SnapshotSummary where
  countries_processed : ℕ
  total_ads_collected : ℕ
  platform_stats : List PlatformStat
  errors : List String
deriving Repr, DecidableEq

/-- The inner country loop of `collect_current_snapshot` for one platform:
`cell platform country` is the outcome of the cell body (profile lookup
plus `collect_country_data`); `Except.error e` models a raised exception
with message `e`.  Accumulates `(platform_ads, platform_countries,
errors)`. -/
def snapshot_country_loop (cell : String → String → Except String (List Advertisement))
    (platform : String) (countries : List String) : ℕ × ℕ × List String :=
  countries.foldl (fun acc country =>
    match cell platform country with
    | .ok ads => (acc.1 + ads.length, acc.2.1 + (if ads.isEmpty then 0 else 1), acc.2.2)
    | .error e =>
      (acc.1, acc.2.1, acc.2.2 ++ [platform ++ " failed for " ++ country ++ ": " ++ e]))
    (0, 0, [])

/-- `DataCollectionOrchestrator.collect_current_snapshot`: the exchange-rate
prelude and every (platform, country) cell run under `try`/`except`, errors
are accumulated, per-platform stats appended, and
`countries_processed = len(countries)` is set at the end. -/
def collect_current_snapshot (platforms : List String)
    (cell : String → String → Except String (List Advertisement))
    (rates : Except String Unit) (countries : List String) : SnapshotSummary :=
  let errors0 : List String :=
    match rates with
    | .ok _ => []
    | .error e => ["Exchange rate collection failed: " ++ e]
  let step := platforms.foldl
    (fun (acc : ℕ × List PlatformStat × List String) platform =>
      let r := snapshot_country_loop cell platform countries
      (acc.1 + r.1, acc.2.1 ++ [⟨platform, r.1, r.2.1⟩], acc.2.2 ++ r.2.2))
    (0, [], errors0)
  { countries_processed := countries.length
    total_ads_collected := step.1
    platform_stats := step.2.1
    errors := step.2.2 }

/-! ## The correlation step
(`comprehensive_analyzer.py`, `correlate_with_historical_data`) -/

/-- One row of a historical price series (`Date`, `Close`), the date as an
integer day number. -/
structure PricePoint where
  date : ℤ
  close : ℚ
deriving Repr, DecidableEq

/-- The per-crypto slots the correlation step writes into an event's
analysis dictionary (`{crypto}_price_change_pct`, `{crypto}_volatility`).
No `volatility_change_pct` slot exists in this code path. -/
structure CryptoCorrEntry where
  price_change_pct : Option ℚ
  volatility : Option ℝ

/-- `period_data`: the rows of the series whose date falls in the ±30-day
window around the event. -/
def period_data (series : List PricePoint) (event_date : ℤ) : List PricePoint :=
  series.filter
    (fun p => decide (event_date - 30 ≤ p.date) && decide (p.date ≤ event_date + 30))

/-- `pre_crisis`: the closes of the window rows dated before the event. -/
def pre_crisis (series : List PricePoint) (event_date : ℤ) : List ℚ :=
  ((period_data series event_date).filter (fun p => decide (p.date < event_date))).map
    (fun p => p.close)

/-- `post_crisis`: the closes of the window rows dated on or after the
event. -/
def post_crisis (series : List PricePoint) (event_date : ℤ) : List ℚ :=
  ((period_data series event_date).filter (fun p => decide (event_date ≤ p.date))).map
    (fun p => p.close)

/-- The per-(event, crypto) body of `correlate_with_historical_data`:
when the ±30-day window is empty no keys are written (`none`); when one of
pre/post is empty both keys are set to Python `None` (`some ⟨none, none⟩`);
otherwise
`price_change = (post_crisis.iloc[0] − pre_crisis.iloc[-1]) / pre_crisis.iloc[-1] * 100`
and `volatility = period_data.Close.std() / period_data.Close.mean() * 100`
over the whole window.  The `headD 0`/`getLastD 0` defaults are never used:
this branch runs only when both windows are nonempty (where pandas'
`.iloc[0]`/`.iloc[-1]` are defined). -/
noncomputable def correlate_crypto (series : List PricePoint) (event_date : ℤ) :
    Option CryptoCorrEntry :=
  if (period_data series event_date).length > 0 then
    if (pre_crisis series event_date).length > 0
        ∧ (post_crisis series event_date).length > 0 then
      some
        { price_change_pct := some
            (((post_crisis series event_date).headD 0
                - (pre_crisis series event_date).getLastD 0)
              / (pre_crisis series event_date).getLastD 0 * 100)
          volatility := some
            (sampleStd ((period_data series event_date).map (fun p => p.close))
              / (listMean ((period_data series event_date).map (fun p => p.close)) : ℚ)
              * 100) }
    else some { price_change_pct := none, volatility := none }
  else none

/-! ## Supporting lemmas: the JSON round-trip -/

theorem hexVal_hexDig (d : ℕ) (h : d < 16) : hexVal (hexDig d) = some d := by
  interval_cases d <;> decide

theorem hex4_toHex4 (n : ℕ) (h : n < 0x10000) :
    hex4 (hexDig (n / 4096 % 16)) (hexDig (n / 256 % 16))
      (hexDig (n / 16 % 16)) (hexDig (n % 16)) = some n := by
  rw [hex4, hexVal_hexDig _ (Nat.mod_lt _ (by norm_num)),
    hexVal_hexDig _ (Nat.mod_lt _ (by norm_num)),
    hexVal_hexDig _ (Nat.mod_lt _ (by norm_num)),
    hexVal_hexDig _ (Nat.mod_lt _ (by norm_num))]
  show some _ = some n
  rw [Option.some.injEq]
  omega

theorem char_valid_range (c : Char) :
    c.toNat < 0xd800 ∨ (0xdfff < c.toNat ∧ c.toNat < 0x110000) := by
  have hv := c.valid
  simpa [UInt32.isValidChar, Nat.isValidChar, Char.toNat] using hv

theorem consHd_some (c : Char) (s r : List Char) :
    consHd c (some (s, r)) = some (c :: s, r) := rfl

theorem parse_escape (s : List Char) (rest : List Char) :
    parseJsonString (escapeList s ++ '"' :: rest) = some (s, rest) := by
  induction s generalizing rest with
  | nil =>
    show parseJsonString ('"' :: rest) = some ([], rest)
    rw [parseJsonString]
    simp
  | cons c cs ih =>
    have hval := char_valid_range c
    have hesc : escapeList (c :: cs) ++ '"' :: rest
        = escapeChar c ++ (escapeList cs ++ '"' :: rest) := by
      show (escapeChar c ++ escapeList cs) ++ '"' :: rest = _
      rw [List.append_assoc]
    rw [hesc]
    by_cases h1 : c = '"'
    · subst h1
      show parseJsonString ('\\' :: '"' :: _) = _
      rw [parseJsonString, if_neg (by decide), if_pos rfl, parseEscapeSeq, if_pos rfl]
      simp only [List.append_eq, List.nil_append]
      rw [ih, consHd_some]
    by_cases h2 : c = '\\'
    · subst h2
      show parseJsonString ('\\' :: '\\' :: _) = _
      rw [parseJsonString, if_neg (by decide), if_pos rfl, parseEscapeSeq,
        if_neg (by decide), if_pos rfl]
      simp only [List.append_eq, List.nil_append]
      rw [ih, consHd_some]
    by_cases h3 : c = '\x08'
    · subst h3
      show parseJsonString ('\\' :: 'b' :: _) = _
      rw [parseJsonString, if_neg (by decide), if_pos rfl, parseEscapeSeq,
        if_neg (by decide), if_neg (by decide), if_neg (by decide), if_pos rfl]
      simp only [List.append_eq, List.nil_append]
      rw [ih, consHd_some]
    by_cases h4 : c = '\x0c'
    · subst h4
      show parseJsonString ('\\' :: 'f' :: _) = _
      rw [parseJsonString, if_neg (by decide), if_pos rfl, parseEscapeSeq,
        if_neg (by decide), if_neg (by decide), if_neg (by decide),
        if_neg (by decide), if_pos rfl]
      simp only [List.append_eq, List.nil_append]
      rw [ih, consHd_some]
    by_cases h5 : c = '\n'
    · subst h5
      show parseJsonString ('\\' :: 'n' :: _) = _
      rw [parseJsonString, if_neg (by decide), if_pos rfl, parseEscapeSeq,
        if_neg (by decide), if_neg (by decide), if_neg (by decide),
        if_neg (by decide), if_neg (by decide), if_pos rfl]
      simp only [List.append_eq, List.nil_append]
      rw [ih, consHd_some]
    by_cases h6 : c = '\r'
    · subst h6
      show parseJsonString ('\\' :: 'r' :: _) = _
      rw [parseJsonString, if_neg (by decide), if_pos rfl, parseEscapeSeq,
        if_neg (by decide), if_neg (by decide), if_neg (by decide),
        if_neg (by decide), if_neg (by decide), if_neg (by decide), if_pos rfl]
      simp only [List.append_eq, List.nil_append]
      rw [ih, consHd_some]
    by_cases h7 : c = '\t'
    · subst h7
      show parseJsonString ('\\' :: 't' :: _) = _
      rw [parseJsonString, if_neg (by decide), if_pos rfl, parseEscapeSeq,
        if_neg (by decide), if_neg (by decide), if_neg (by decide),
        if_neg (by decide), if_neg (by decide), if_neg (by decide),
        if_neg (by decide), if_pos rfl]
      simp only [List.append_eq, List.nil_append]
      rw [ih, consHd_some]
    by_cases h8 : c.toNat < 0x20
    · have henc : escapeChar c = '\\' :: 'u' :: toHex4 c.toNat := by
        rw [escapeChar, if_neg h1, if_neg h2, if_neg h3, if_neg h4, if_neg h5,
          if_neg h6, if_neg h7, if_pos h8]
      rw [henc, toHex4]
      simp only [List.append_eq, List.cons_append, List.nil_append]
      rw [parseJsonString, if_neg (by decide), if_pos rfl, parseEscapeSeq,
        if_neg (by decide), if_neg (by decide), if_neg (by decide),
        if_neg (by decide), if_neg (by decide), if_neg (by decide),
        if_neg (by decide), if_neg (by decide), if_pos rfl]
      rw [parseUnicodeEsc_eq _ _ _ _ _ _ (hex4_toHex4 c.toNat (by omega)),
        if_neg (by omega), if_neg (by omega), ih, Char.ofNat_toNat, consHd_some]
    by_cases h9 : c.toNat < 0x7f
    · have henc : escapeChar c = [c] := by
        rw [escapeChar, if_neg h1, if_neg h2, if_neg h3, if_neg h4, if_neg h5,
          if_neg h6, if_neg h7, if_neg h8, if_pos h9]
      rw [henc]
      simp only [List.append_eq, List.cons_append, List.nil_append]
      rw [parseJsonString, if_neg h1, if_neg h2, ih, consHd_some]
    by_cases h10 : c.toNat < 0x10000
    · have henc : escapeChar c = '\\' :: 'u' :: toHex4 c.toNat := by
        rw [escapeChar, if_neg h1, if_neg h2, if_neg h3, if_neg h4, if_neg h5,
          if_neg h6, if_neg h7, if_neg h8, if_neg h9, if_pos h10]
      rw [henc, toHex4]
      simp only [List.append_eq, List.cons_append, List.nil_append]
      rw [parseJsonString, if_neg (by decide), if_pos rfl, parseEscapeSeq,
        if_neg (by decide), if_neg (by decide), if_neg (by decide),
        if_neg (by decide), if_neg (by decide), if_neg (by decide),
        if_neg (by decide), if_neg (by decide), if_pos rfl]
      rw [parseUnicodeEsc_eq _ _ _ _ _ _ (hex4_toHex4 c.toNat h10),
        if_neg (by omega), if_neg (by omega), ih, Char.ofNat_toNat, consHd_some]
    · have henc : escapeChar c
          = '\\' :: 'u' :: toHex4 (0xD800 + (c.toNat - 0x10000) / 0x400)
            ++ ('\\' :: 'u' :: toHex4 (0xDC00 + (c.toNat - 0x10000) % 0x400)) := by
        rw [escapeChar, if_neg h1, if_neg h2, if_neg h3, if_neg h4, if_neg h5,
          if_neg h6, if_neg h7, if_neg h8, if_neg h9, if_neg h10]
      have hdivlt : (c.toNat - 0x10000) / 0x400 < 0x400 := by
        apply Nat.div_lt_of_lt_mul
        omega
      have hmodlt : (c.toNat - 0x10000) % 0x400 < 0x400 := Nat.mod_lt _ (by norm_num)
      rw [henc, toHex4, toHex4]
      simp only [List.append_eq, List.cons_append, List.nil_append]
      rw [parseJsonString, if_neg (by decide), if_pos rfl, parseEscapeSeq,
        if_neg (by decide), if_neg (by decide), if_neg (by decide),
        if_neg (by decide), if_neg (by decide), if_neg (by decide),
        if_neg (by decide), if_neg (by decide), if_pos rfl]
      rw [parseUnicodeEsc_eq _ _ _ _ _ _
          (hex4_toHex4 (0xD800 + (c.toNat - 0x10000) / 0x400) (by omega)),
        if_pos (by omega)]
      rw [parseLowSurrogate_eq _ _ _ _ _ _ _
          (hex4_toHex4 (0xDC00 + (c.toNat - 0x10000) % 0x400) (by omega)),
        if_pos (by omega)]
      have harg : 0x10000
          + (0xD800 + (c.toNat - 0x10000) / 0x400 - 0xD800) * 0x400
          + (0xDC00 + (c.toNat - 0x10000) % 0x400 - 0xDC00) = c.toNat := by
        omega
      rw [harg, Char.ofNat_toNat, ih, consHd_some]

theorem skipWs_cons_not_ws (c : Char) (l : List Char) (h : isJsonWs c = false) :
    skipWs (c :: l) = c :: l := by
  simp [skipWs, List.dropWhile_cons, h]

theorem skipWs_space (l : List Char) : skipWs (' ' :: l) = skipWs l := by
  simp [skipWs, isJsonWs, List.dropWhile_cons]

theorem parseArrRest_close (l r : List Char) (h : skipWs l = ']' :: r) :
    parseArrRest l = some ([], r) := by
  rw [parseArrRest.eq_def]
  split
  · next r' heq => rw [h] at heq; injection heq with h1 h2; subst h2; rfl
  · next r' heq => rw [h] at heq; injection heq with h1 h2; exact absurd h1 (by decide)
  · next hne1 hne2 => exact absurd h (hne1 r)

theorem parseArrRest_step (l r r2 s r3 : List Char) (items' : List (List Char))
    (rest : List Char)
    (h1 : skipWs l = ',' :: r) (h2 : skipWs r = '"' :: r2)
    (h3 : parseJsonString r2 = some (s, r3))
    (h4 : parseArrRest r3 = some (items', rest)) :
    parseArrRest l = some (s :: items', rest) := by
  rw [parseArrRest.eq_def]
  split
  · next r' heq => rw [h1] at heq; injection heq with hbad _; exact absurd hbad (by decide)
  · next r' heq =>
    rw [h1] at heq
    injection heq with _ hr
    subst hr
    split
    · next r2' heq2 =>
      rw [h2] at heq2
      injection heq2 with _ hr2
      subst hr2
      split
      · next s' r3' heq3 =>
        rw [h3] at heq3
        injection heq3 with hp
        injection hp with hs hr3
        subst hs
        subst hr3
        split
        · next items'' rest' heq4 =>
          rw [h4] at heq4
          injection heq4 with hp2
          injection hp2 with hi hr4
          subst hi
          subst hr4
          rfl
        · next heq4 => rw [h4] at heq4; exact Option.noConfusion heq4
      · next heq3 => rw [h3] at heq3; exact Option.noConfusion heq3
    · next x heq2 => exact absurd h2 (heq2 r2)
  · next x y => exact absurd h1 (y r)

theorem json_loads_chars_nil (l r r2 : List Char)
    (h1 : skipWs l = '[' :: r) (h2 : skipWs r = ']' :: r2) (h3 : skipWs r2 = []) :
    json_loads_chars l = some [] := by
  rw [json_loads_chars.eq_def]
  split
  · next r' heq =>
    rw [h1] at heq
    injection heq with _ hr
    subst hr
    split
    · next r2' heq2 =>
      rw [h2] at heq2
      injection heq2 with _ hr2
      subst hr2
      rw [if_pos (by rw [h3]; rfl)]
    · next r2' heq2 => rw [h2] at heq2; injection heq2 with hbad _; exact absurd hbad (by decide)
    · next hne1 hne2 => exact absurd h2 (hne1 r2)
  · next hne => exact absurd h1 (hne r)

theorem json_loads_chars_cons (l r r2 s r3 : List Char) (items : List (List Char))
    (rest : List Char)
    (h1 : skipWs l = '[' :: r) (h2 : skipWs r = '"' :: r2)
    (h3 : parseJsonString r2 = some (s, r3))
    (h4 : parseArrRest r3 = some (items, rest)) (h5 : skipWs rest = []) :
    json_loads_chars l = some (s :: items) := by
  rw [json_loads_chars.eq_def]
  split
  · next r' heq =>
    rw [h1] at heq
    injection heq with _ hr
    subst hr
    split
    · next r2' heq2 => rw [h2] at heq2; injection heq2 with hbad _; exact absurd hbad (by decide)
    · next r2' heq2 =>
      rw [h2] at heq2
      injection heq2 with _ hr2
      subst hr2
      split
      · next s' r3' heq3 =>
        rw [h3] at heq3
        injection heq3 with hp
        injection hp with hs hr3
        subst hs
        subst hr3
        split
        · next items' rest' heq4 =>
          rw [h4] at heq4
          injection heq4 with hp2
          injection hp2 with hi hr4
          subst hi
          subst hr4
          rw [if_pos (by rw [h5]; rfl)]
        · next heq4 => rw [h4] at heq4; exact Option.noConfusion heq4
      · next heq3 => rw [h3] at heq3; exact Option.noConfusion heq3
    · next hne1 hne2 => exact absurd h2 (hne2 r2)
  · next hne => exact absurd h1 (hne r)

theorem parseArrRest_encode (items : List (List Char)) (tail : List Char) :
    parseArrRest (sepTail items ++ ']' :: tail) = some (items, tail) := by
  induction items generalizing tail with
  | nil =>
    apply parseArrRest_close
    show skipWs (']' :: tail) = ']' :: tail
    exact skipWs_cons_not_ws _ _ (by decide)
  | cons s items ih =>
    have hinput : sepTail (s :: items) ++ ']' :: tail
        = ',' :: (' ' :: ('"' :: (escapeList s ++ '"' :: (sepTail items ++ ']' :: tail)))) := by
      simp only [sepTail, List.map_cons, List.flatten_cons, encodeJsonString,
        List.cons_append, List.append_assoc, List.singleton_append,
        List.nil_append]
    rw [hinput]
    refine parseArrRest_step _
      (' ' :: '"' :: (escapeList s ++ '"' :: (sepTail items ++ ']' :: tail)))
      (escapeList s ++ '"' :: (sepTail items ++ ']' :: tail)) s
      (sepTail items ++ ']' :: tail) items tail ?_ ?_ ?_ ?_
    · exact skipWs_cons_not_ws _ _ (by decide)
    · rw [skipWs_space]
      exact skipWs_cons_not_ws _ _ (by decide)
    · exact parse_escape s _
    · exact ih tail

theorem sepJoin_map_cons (x : List Char) (xs : List (List Char)) :
    sepJoin (encodeJsonString x :: xs.map encodeJsonString)
      = encodeJsonString x ++ sepTail xs := by
  induction xs generalizing x with
  | nil => simp [sepJoin, sepTail]
  | cons y ys ih =>
    rw [List.map_cons, sepJoin, ih y]
    simp [sepTail, List.append_assoc]

theorem loads_dumps_chars (l : List (List Char)) :
    json_loads_chars (json_dumps_chars l) = some l := by
  cases l with
  | nil =>
    refine json_loads_chars_nil _ [']'] [] ?_ ?_ rfl
    · exact skipWs_cons_not_ws _ _ (by decide)
    · exact skipWs_cons_not_ws _ _ (by decide)
  | cons x xs =>
    have hinput : json_dumps_chars (x :: xs)
        = '[' :: ('"' :: (escapeList x ++ '"' :: (sepTail xs ++ ']' :: []))) := by
      rw [json_dumps_chars, List.map_cons, sepJoin_map_cons]
      simp only [encodeJsonString, List.cons_append, List.append_assoc,
        List.singleton_append, List.append_nil, List.nil_append]
    rw [hinput]
    refine json_loads_chars_cons _
      ('"' :: (escapeList x ++ '"' :: (sepTail xs ++ ']' :: [])))
      (escapeList x ++ '"' :: (sepTail xs ++ ']' :: [])) x
      (sepTail xs ++ ']' :: []) xs [] ?_ ?_ ?_ ?_ rfl
    · exact skipWs_cons_not_ws _ _ (by decide)
    · exact skipWs_cons_not_ws _ _ (by decide)
    · exact parse_escape x _
    · exact parseArrRest_encode xs []

/-! ## Supporting lemmas for the sampling closed form -/

/-- Prepending one step to an arithmetic progression of dates. -/
theorem range_map_step (cur step : ℤ) (n : ℕ) :
    (List.range (n + 1)).map (fun i : ℕ => cur + step * (i : ℤ))
      = cur :: (List.range n).map (fun i : ℕ => (cur + step) + step * (i : ℤ)) := by
  rw [List.range_succ_eq_map, List.map_cons, List.map_map]
  simp only [Nat.cast_zero, mul_zero, add_zero]
  congr 1
  refine List.map_congr_left fun i _ => ?_
  simp only [Function.comp_apply, Nat.succ_eq_add_one]
  push_cast
  ring

/-- Closed form of the date-walking loop: an arithmetic progression from
`cur` with the given step, staying `≤ endD`. -/
theorem sampleLoop_eq (endD step : ℤ) (hs : 0 < step) (cur : ℤ) :
    sampleLoop endD step hs cur =
      if cur ≤ endD then
        (List.range ((endD - cur).toNat / step.toNat + 1)).map
          (fun i : ℕ => cur + step * (i : ℤ))
      else [] := by
  induction cur using sampleLoop.induct endD step hs with
  | case1 cur hle ih =>
    rw [sampleLoop, if_pos hle, ih, if_pos hle]
    by_cases h2 : cur + step ≤ endD
    · rw [if_pos h2]
      have hdiv : (endD - cur).toNat / step.toNat
          = (endD - (cur + step)).toNat / step.toNat + 1 := by
        have h7 : (endD - cur).toNat = (endD - (cur + step)).toNat + step.toNat := by
          omega
        rw [h7, Nat.add_div_right _ (by omega)]
      conv_rhs => rw [hdiv, range_map_step]
    · rw [if_neg h2]
      have hdiv : (endD - cur).toNat / step.toNat = 0 :=
        Nat.div_eq_of_lt (by omega)
      conv_rhs => rw [hdiv, range_map_step]
      simp
  | case2 cur hle =>
    rw [sampleLoop, if_neg hle, if_neg hle]

/-- Structure eta for `String`: a string is the string of its characters. -/
theorem string_mk_data (s : String) : String.mk s.data = s := rfl

/-! ## Theorems for claim C1 -/

/-- C1, counterexample: the claim asserts
`calculate_premium(2900, 600, 1.0) == 283.33` within `±0.01`, but the code
returns `((2900/600 - 1)/1)*100` rounded, which is `383.33`. -/
theorem c1_worked_example_false :
    ¬ |calculate_premium 2900 600 1 - 28333/100| ≤ 1/100 := by
  norm_num [calculate_premium, pyRound2, roundHalfEvenInt]

/-- C1 (amended): for every price `p`, official rate `r` and base value `b`,
if `r ≠ 0` then `calculate_premium p r b` returns `((p / r) - b) / b * 100`
rounded to 2 decimal places, and if `r = 0` it returns `0`; in particular
`calculate_premium 2900 600 1 = 383.33` (within `±0.01`). -/
theorem c1_premium_formula :
    (∀ p r b : ℚ, r ≠ 0 →
      calculate_premium p r b = pyRound2 ((p / r - b) / b * 100)) ∧
    (∀ p b : ℚ, calculate_premium p 0 b = 0) ∧
    |calculate_premium 2900 600 1 - 38333/100| ≤ 1/100 := by
  refine ⟨fun p r b hr => ?_, fun p b => ?_, ?_⟩
  · simp [calculate_premium, hr]
  · simp [calculate_premium]
  · norm_num [calculate_premium, pyRound2, roundHalfEvenInt]

/-- Witness for C1: the nonzero-rate branch applied at the worked example. -/
theorem c1_premium_formula_witness :
    (600 : ℚ) ≠ 0 ∧
    calculate_premium 2900 600 1 = pyRound2 ((2900 / 600 - 1) / 1 * 100) :=
  ⟨by decide, c1_premium_formula.1 2900 600 1 (by decide)⟩

/-! ## Theorems for claim C4 -/

/-- C4: crisis-period rate collection over `[start, end]` steps in 7-day
increments when the range exceeds 90 days and in 1-day increments otherwise
(one rate request per visited date); a 200-day range yields 29 requests, a
30-day range 31, and the boundary is exactly at 90 days (a 90-day range is
sampled daily, 91 requests; a 91-day range weekly, 14 requests). -/
theorem c4_crisis_sampling :
    (∀ s e : ℤ, e - s > 90 →
      crisis_sample_dates s e =
        (List.range ((e - s).toNat / 7 + 1)).map (fun i : ℕ => s + 7 * (i : ℤ))) ∧
    (∀ s e : ℤ, s ≤ e → e - s ≤ 90 →
      crisis_sample_dates s e =
        (List.range ((e - s).toNat + 1)).map (fun i : ℕ => s + (i : ℤ))) ∧
    (∀ s : ℤ, (crisis_sample_dates s (s + 200)).length = 29) ∧
    (∀ s : ℤ, (crisis_sample_dates s (s + 30)).length = 31) ∧
    (∀ s : ℤ, (crisis_sample_dates s (s + 90)).length = 91) ∧
    (∀ s : ℤ, (crisis_sample_dates s (s + 91)).length = 14) := by
  have hweek : ∀ s e : ℤ, e - s > 90 →
      crisis_sample_dates s e =
        (List.range ((e - s).toNat / 7 + 1)).map (fun i : ℕ => s + 7 * (i : ℤ)) := by
    intro s e h
    rw [crisis_sample_dates, if_pos h, sampleLoop_eq, if_pos (by omega)]
    rfl
  have hday : ∀ s e : ℤ, s ≤ e → e - s ≤ 90 →
      crisis_sample_dates s e =
        (List.range ((e - s).toNat + 1)).map (fun i : ℕ => s + (i : ℤ)) := by
    intro s e hse h
    rw [crisis_sample_dates, if_neg (by omega), sampleLoop_eq, if_pos hse]
    norm_num
  refine ⟨hweek, hday, fun s => ?_, fun s => ?_, fun s => ?_, fun s => ?_⟩
  · rw [hweek s (s + 200) (by omega)]
    simp only [List.length_map, List.length_range]
    omega
  · rw [hday s (s + 30) (by omega) (by omega)]
    simp only [List.length_map, List.length_range]
    omega
  · rw [hday s (s + 90) (by omega) (by omega)]
    simp only [List.length_map, List.length_range]
    omega
  · rw [hweek s (s + 91) (by omega)]
    simp only [List.length_map, List.length_range]
    omega

/-- Witness for C4: both sampling branches applied at concrete ranges. -/
theorem c4_crisis_sampling_witness :
    ((200 : ℤ) - 0 > 90 ∧
      crisis_sample_dates 0 200 =
        (List.range (((200 : ℤ) - 0).toNat / 7 + 1)).map
          (fun i : ℕ => (0 : ℤ) + 7 * (i : ℤ))) ∧
    ((0 : ℤ) ≤ 30 ∧ (30 : ℤ) - 0 ≤ 90 ∧
      crisis_sample_dates 0 30 =
        (List.range (((30 : ℤ) - 0).toNat + 1)).map
          (fun i : ℕ => (0 : ℤ) + (i : ℤ))) :=
  ⟨⟨by norm_num, c4_crisis_sampling.1 0 200 (by norm_num)⟩,
   ⟨by norm_num, by norm_num,
    c4_crisis_sampling.2.1 0 30 (by norm_num) (by norm_num)⟩⟩

/-! ## Theorems for claim C7 -/

/-- C7: encoding a list of payment-method labels with `json.dumps` at save
and decoding the cell with `json.loads` at load returns the original list
in order; a missing cell decodes to the empty list, never an error. -/
theorem c7_payment_methods_roundtrip :
    (∀ labels : List String,
      json_loads_strlist (json_dumps_strlist labels) = some labels) ∧
    decode_payment_methods none = some [] ∧
    (∀ labels : List String,
      decode_payment_methods (some (json_dumps_strlist labels)) = some labels) := by
  have hrt : ∀ labels : List String,
      json_loads_strlist (json_dumps_strlist labels) = some labels := by
    intro labels
    simp only [json_loads_strlist, json_dumps_strlist]
    rw [loads_dumps_chars]
    simp [List.map_map, Function.comp_def, string_mk_data]
  exact ⟨hrt, rfl, fun labels => hrt labels⟩

/-! ## Theorems for claim C8 -/

/-- C8: country-profile lookup by code (and by name) depends on the query
only through whitespace-trimming and case folding, so `lookup "sd"`,
`lookup "SD"` and `lookup " Sd "` return the same profile; a successful
lookup returns a profile from the table whose key matches the normalized
query, and when no profile matches, the lookup raises a `ValueError`
(modelled as `Except.error`), never a default profile. -/
theorem c8_country_lookup :
    (∀ ps (q₁ q₂ : String), pyUpper (pyStrip q₁) = pyUpper (pyStrip q₂) →
      (get_profile_by_country_code ps q₁).toOption
        = (get_profile_by_country_code ps q₂).toOption) ∧
    (∀ ps q p, get_profile_by_country_code ps q = .ok p →
      p ∈ ps ∧ pyUpper p.country_code = pyUpper (pyStrip q)) ∧
    (∀ ps q, (∀ p ∈ ps, pyUpper p.country_code ≠ pyUpper (pyStrip q)) →
      get_profile_by_country_code ps q
        = .error ("No profile found for country code: " ++ q)) ∧
    (∀ ps (q₁ q₂ : String), pyLower (pyStrip q₁) = pyLower (pyStrip q₂) →
      (get_profile_by_country_name ps q₁).toOption
        = (get_profile_by_country_name ps q₂).toOption) ∧
    (∀ ps q p, get_profile_by_country_name ps q = .ok p →
      p ∈ ps ∧ pyLower p.name = pyLower (pyStrip q)) ∧
    (∀ ps q, (∀ p ∈ ps, pyLower p.name ≠ pyLower (pyStrip q)) →
      get_profile_by_country_name ps q
        = .error ("No profile found for country name: " ++ q)) ∧
    (∀ ps, (get_profile_by_country_code ps "sd").toOption
        = (get_profile_by_country_code ps "SD").toOption ∧
      (get_profile_by_country_code ps "SD").toOption
        = (get_profile_by_country_code ps " Sd ").toOption) := by
  have hcode_inv : ∀ ps (q₁ q₂ : String),
      pyUpper (pyStrip q₁) = pyUpper (pyStrip q₂) →
      (get_profile_by_country_code ps q₁).toOption
        = (get_profile_by_country_code ps q₂).toOption := by
    intro ps q₁ q₂ h
    simp only [get_profile_by_country_code, h]
    cases hf : ps.find? (fun p => pyUpper p.country_code = pyUpper (pyStrip q₂)) <;>
      simp [Except.toOption]
  refine ⟨hcode_inv, ?_, ?_, ?_, ?_, ?_, ?_⟩
  · intro ps q p h
    simp only [get_profile_by_country_code] at h
    cases hf : ps.find? (fun p => pyUpper p.country_code = pyUpper (pyStrip q)) with
    | none => rw [hf] at h; exact absurd h (by simp)
    | some p' =>
      rw [hf] at h
      simp only [Except.ok.injEq] at h
      subst h
      exact ⟨List.mem_of_find?_eq_some hf, by simpa using List.find?_some hf⟩
  · intro ps q h
    simp only [get_profile_by_country_code]
    rw [List.find?_eq_none.mpr (by simpa using h)]
  · intro ps q₁ q₂ h
    simp only [get_profile_by_country_name, h]
    cases hf : ps.find? (fun p => pyLower p.name = pyLower (pyStrip q₂)) <;>
      simp [Except.toOption]
  · intro ps q p h
    simp only [get_profile_by_country_name] at h
    cases hf : ps.find? (fun p => pyLower p.name = pyLower (pyStrip q)) with
    | none => rw [hf] at h; exact absurd h (by simp)
    | some p' =>
      rw [hf] at h
      simp only [Except.ok.injEq] at h
      subst h
      exact ⟨List.mem_of_find?_eq_some hf, by simpa using List.find?_some hf⟩
  · intro ps q h
    simp only [get_profile_by_country_name]
    rw [List.find?_eq_none.mpr (by simpa using h)]
  · intro ps
    exact ⟨hcode_inv ps "sd" "SD" (by decide), hcode_inv ps "SD" " Sd " (by decide)⟩

/-- Witness for C8: the three case/whitespace variants on a one-row table. -/
theorem c8_country_lookup_witness :
    pyUpper (pyStrip "sd") = pyUpper (pyStrip " Sd ") ∧
    (get_profile_by_country_code
        [{ country_code := "SD", name := "Sudan", fiat := "SDG" }] "sd").toOption
      = (get_profile_by_country_code
        [{ country_code := "SD", name := "Sudan", fiat := "SDG" }] " Sd ").toOption :=
  ⟨by decide,
   c8_country_lookup.1 [{ country_code := "SD", name := "Sudan", fiat := "SDG" }]
     "sd" " Sd " (by decide)⟩


/-! ## Supporting lemmas for the collection loops -/

/-- Processing a page of raw ads preserves the
`all_ads.length = buy_count + sell_count` invariant. -/
theorem binance_process_side_preserves (now cc tt : String)
    (raws : List BinanceRawAd) :
    ∀ st : CollectState, st.all_ads.length = st.buy_count + st.sell_count →
      ((binance_process_side now cc tt raws st).all_ads).length
        = (binance_process_side now cc tt raws st).buy_count
          + (binance_process_side now cc tt raws st).sell_count := by
  induction raws with
  | nil => intro st h; simpa [binance_process_side] using h
  | cons a raws ih =>
    intro st h
    simp only [binance_process_side, List.foldl_cons] at *
    refine ih _ ?_
    by_cases hbt : tt = "BUY" <;> simp [hbt, List.length_append, h] <;> omega

/-- Every ad a page-processing pass appends is a standardization of some
raw ad with the pass's trade side. -/
theorem binance_process_side_mem (now cc tt : String) (raws : List BinanceRawAd) :
    ∀ (st : CollectState) (ad : Advertisement),
      ad ∈ (binance_process_side now cc tt raws st).all_ads →
      ad ∈ st.all_ads ∨ ∃ raw, ad = binance_standardize_ad now raw cc tt := by
  induction raws with
  | nil => intro st ad h; exact Or.inl h
  | cons a raws ih =>
    intro st ad h
    simp only [binance_process_side, List.foldl_cons] at h
    rcases ih _ ad h with hmem | hex
    · rcases List.mem_append.mp hmem with h1 | h2
      · exact Or.inl h1
      · exact Or.inr ⟨a, by simpa using h2⟩
    · exact Or.inr hex

/-- OKX analogue of `binance_process_side_preserves`. -/
theorem okx_process_side_preserves (now cc tt : String) (raws : List OKXRawAd) :
    ∀ st : CollectState, st.all_ads.length = st.buy_count + st.sell_count →
      ((okx_process_side now cc tt raws st).all_ads).length
        = (okx_process_side now cc tt raws st).buy_count
          + (okx_process_side now cc tt raws st).sell_count := by
  induction raws with
  | nil => intro st h; simpa [okx_process_side] using h
  | cons a raws ih =>
    intro st h
    simp only [okx_process_side, List.foldl_cons] at *
    refine ih _ ?_
    by_cases hbt : tt = "buy" <;> simp [hbt, List.length_append, h] <;> omega

/-- OKX analogue of `binance_process_side_mem`. -/
theorem okx_process_side_mem (now cc tt : String) (raws : List OKXRawAd) :
    ∀ (st : CollectState) (ad : Advertisement),
      ad ∈ (okx_process_side now cc tt raws st).all_ads →
      ad ∈ st.all_ads ∨ ∃ raw, ad = okx_standardize_ad now raw cc tt := by
  induction raws with
  | nil => intro st ad h; exact Or.inl h
  | cons a raws ih =>
    intro st ad h
    simp only [okx_process_side, List.foldl_cons] at h
    rcases ih _ ad h with hmem | hex
    · rcases List.mem_append.mp hmem with h1 | h2
      · exact Or.inl h1
      · exact Or.inr ⟨a, by simpa using h2⟩
    · exact Or.inr hex

/-! ## Theorems for claim C3 -/

/-- C3, counterexample: an unknown side value is not a hard error.  OKX's
standardize silently assigns the unknown side `"banana"` to `SELL`, and
Binance's standardize copies the unknown side `"hold"` into `trade_type`
verbatim; neither raises or rejects the record. -/
theorem c3_unknown_side_not_rejected :
    (okx_standardize_ad "2025-01-01T00:00:00Z"
        ⟨"USDT", "SDG", 1050, 100, 5000, 2500, ["MTN"], "trader", 95, 150, "okx_1"⟩
        "SD" "banana").trade_type = "SELL" ∧
    (binance_standardize_ad "2025-01-01T00:00:00Z"
        ⟨"USDT", "SDG", 1050, 100, 5000, 2500, ["MTN"], "trader", 95, 150, "b_1"⟩
        "SD" "hold").trade_type = "hold" ∧
    ("hold" : String) ≠ "BUY" ∧ ("hold" : String) ≠ "SELL" := by
  refine ⟨?_, rfl, by decide, by decide⟩
  show (if pyLower "banana" = "buy" then "BUY" else "SELL") = "SELL"
  decide

/-- C3 (amended): OKX's standardize maps a side whose lower-casing is
`"buy"` to `BUY` and every other side value — known or unknown — silently
to `SELL`; Binance's standardize copies the caller's side string into
`trade_type` unchanged; neither standardize step raises on, or rejects, an
unmapped side value. -/
theorem c3_side_mapping :
    (∀ now ad_data cc tt, (okx_standardize_ad now ad_data cc tt).trade_type
        = if pyLower tt = "buy" then "BUY" else "SELL") ∧
    (∀ now ad_data cc tt,
      (binance_standardize_ad now ad_data cc tt).trade_type = tt) :=
  ⟨fun _ _ _ _ => rfl, fun _ _ _ _ => rfl⟩

/-! ## Theorems for claim C5 -/

/-- C5: every Advertisement a collection run produces — either adapter, any
fetch results, any country, either trade side of the run's loop — has
`trade_type ∈ {BUY, SELL}` and `premium_pct = none` at creation. -/
theorem c5_standardized_invariants :
    (∀ fetch now cc ad, ad ∈ (binance_collect_country fetch now cc).all_ads →
      (ad.trade_type = "BUY" ∨ ad.trade_type = "SELL") ∧ ad.premium_pct = none) ∧
    (∀ fetch now cc ad, ad ∈ (okx_collect_country fetch now cc).all_ads →
      (ad.trade_type = "BUY" ∨ ad.trade_type = "SELL") ∧ ad.premium_pct = none) := by
  constructor
  · intro fetch now cc ad h
    rw [binance_collect_country] at h
    rcases binance_process_side_mem now cc "SELL" _ _ ad h with h1 | ⟨raw, rfl⟩
    · rcases binance_process_side_mem now cc "BUY" _ _ ad h1 with h2 | ⟨raw, rfl⟩
      · exact absurd h2 (by simp)
      · exact ⟨Or.inl rfl, rfl⟩
    · exact ⟨Or.inr rfl, rfl⟩
  · intro fetch now cc ad h
    rw [okx_collect_country] at h
    rcases okx_process_side_mem now cc "sell" _ _ ad h with h1 | ⟨raw, rfl⟩
    · rcases okx_process_side_mem now cc "buy" _ _ ad h1 with h2 | ⟨raw, rfl⟩
      · exact absurd h2 (by simp)
      · refine ⟨Or.inl ?_, rfl⟩
        show (if pyLower "buy" = "buy" then "BUY" else "SELL") = "BUY"
        decide
    · refine ⟨Or.inr ?_, rfl⟩
      show (if pyLower "sell" = "buy" then "BUY" else "SELL") = "SELL"
      decide

/-- Witness for C5: a one-ad fetch oracle; the collected ad is standardized
with `trade_type = "BUY"` and a null premium. -/
theorem c5_standardized_invariants_witness :
    (binance_standardize_ad "t0"
        ⟨"USDT", "SDG", 1050, 100, 5000, 2500, ["MTN"], "trader", 95, 150, "b_1"⟩
        "SD" "BUY")
      ∈ (binance_collect_country
          (fun tt page =>
            if tt = "BUY" ∧ page = 1 then
              [⟨"USDT", "SDG", 1050, 100, 5000, 2500, ["MTN"], "trader", 95, 150, "b_1"⟩]
            else [])
          "t0" "SD").all_ads ∧
    (((binance_standardize_ad "t0"
        ⟨"USDT", "SDG", 1050, 100, 5000, 2500, ["MTN"], "trader", 95, 150, "b_1"⟩
        "SD" "BUY").trade_type = "BUY" ∨
      (binance_standardize_ad "t0"
        ⟨"USDT", "SDG", 1050, 100, 5000, 2500, ["MTN"], "trader", 95, 150, "b_1"⟩
        "SD" "BUY").trade_type = "SELL") ∧
     (binance_standardize_ad "t0"
        ⟨"USDT", "SDG", 1050, 100, 5000, 2500, ["MTN"], "trader", 95, 150, "b_1"⟩
        "SD" "BUY").premium_pct = none) := by
  have hmem : (binance_standardize_ad "t0"
      ⟨"USDT", "SDG", 1050, 100, 5000, 2500, ["MTN"], "trader", 95, 150, "b_1"⟩
      "SD" "BUY")
      ∈ (binance_collect_country
          (fun tt page =>
            if tt = "BUY" ∧ page = 1 then
              [⟨"USDT", "SDG", 1050, 100, 5000, 2500, ["MTN"], "trader", 95, 150, "b_1"⟩]
            else [])
          "t0" "SD").all_ads := by
    simp [binance_collect_country, binance_process_side, fetched_pages]
  exact ⟨hmem, c5_standardized_invariants.1 _ "t0" "SD" _ hmem⟩

/-! ## Theorems for claim C6 -/

/-- C6: in every collection-run log entry written by an adapter's
`collect_country_data` (either adapter, any fetch results), the logged
`ads_collected` equals the logged `buy_ads` plus the logged `sell_ads`. -/
theorem c6_run_log_invariant :
    (∀ fetch now cc cname fiat cid,
      (binance_run_log fetch now cc cname fiat cid).ads_collected
        = (binance_run_log fetch now cc cname fiat cid).buy_ads
          + (binance_run_log fetch now cc cname fiat cid).sell_ads) ∧
    (∀ fetch now cc cname fiat cid,
      (okx_run_log fetch now cc cname fiat cid).ads_collected
        = (okx_run_log fetch now cc cname fiat cid).buy_ads
          + (okx_run_log fetch now cc cname fiat cid).sell_ads) := by
  constructor
  · intro fetch now cc cname fiat cid
    simp only [binance_run_log, log_collection_run, binance_collect_country]
    exact binance_process_side_preserves now cc "SELL" _ _
      (binance_process_side_preserves now cc "BUY" _ _ rfl)
  · intro fetch now cc cname fiat cid
    simp only [okx_run_log, log_collection_run, okx_collect_country]
    exact okx_process_side_preserves now cc "sell" _ _
      (okx_process_side_preserves now cc "buy" _ _ rfl)


/-! ## Supporting lemmas for the orchestrator -/

/-- Closed form of the per-platform country loop, with an arbitrary
starting accumulator. -/
theorem snapshot_country_loop_acc
    (cell : String → String → Except String (List Advertisement))
    (platform : String) (countries : List String) :
    ∀ acc : ℕ × ℕ × List String,
      countries.foldl (fun acc country =>
        match cell platform country with
        | .ok ads => (acc.1 + ads.length, acc.2.1 + (if ads.isEmpty then 0 else 1), acc.2.2)
        | .error e =>
          (acc.1, acc.2.1, acc.2.2 ++ [platform ++ " failed for " ++ country ++ ": " ++ e]))
        acc
      = (acc.1 + (countries.map (fun c =>
            match cell platform c with
            | .ok ads => ads.length
            | .error _ => 0)).sum,
         acc.2.1 + (countries.filter (fun c =>
            match cell platform c with
            | .ok ads => !ads.isEmpty
            | .error _ => false)).length,
         acc.2.2 ++ countries.filterMap (fun c =>
            match cell platform c with
            | .ok _ => none
            | .error e => some (platform ++ " failed for " ++ c ++ ": " ++ e))) := by
  induction countries with
  | nil => intro acc; simp
  | cons c cs ih =>
    intro acc
    rw [List.foldl_cons]
    cases hc : cell platform c with
    | ok ads =>
      rw [ih]
      simp only [List.map_cons, List.filter_cons, List.filterMap_cons, hc,
        List.sum_cons]
      refine congrArg₂ _ (by omega) (congrArg₂ _ ?_ (by simp))
      by_cases he : ads.isEmpty <;> simp [he] <;> omega
    | error e =>
      rw [ih]
      simp only [List.map_cons, List.filter_cons, List.filterMap_cons, hc,
        List.sum_cons, List.append_assoc, List.singleton_append,
        Bool.false_eq_true, if_false]
      refine congrArg₂ _ (by omega) (congrArg₂ _ (by omega) ?_)
      simp

/-- Closed form of `snapshot_country_loop`. -/
theorem snapshot_country_loop_eq
    (cell : String → String → Except String (List Advertisement))
    (platform : String) (countries : List String) :
    snapshot_country_loop cell platform countries
      = ((countries.map (fun c =>
            match cell platform c with
            | .ok ads => ads.length
            | .error _ => 0)).sum,
         (countries.filter (fun c =>
            match cell platform c with
            | .ok ads => !ads.isEmpty
            | .error _ => false)).length,
         countries.filterMap (fun c =>
            match cell platform c with
            | .ok _ => none
            | .error e => some (platform ++ " failed for " ++ c ++ ": " ++ e))) := by
  rw [snapshot_country_loop, snapshot_country_loop_acc]
  simp

/-- Closed form of the platform loop, with an arbitrary accumulator. -/
theorem snapshot_platform_loop_acc
    (cell : String → String → Except String (List Advertisement))
    (countries : List String) (platforms : List String) :
    ∀ acc : ℕ × List PlatformStat × List String,
      platforms.foldl (fun (acc : ℕ × List PlatformStat × List String) platform =>
        let r := snapshot_country_loop cell platform countries
        (acc.1 + r.1, acc.2.1 ++ [⟨platform, r.1, r.2.1⟩], acc.2.2 ++ r.2.2))
        acc
      = (acc.1 + (platforms.map (fun platform =>
            (snapshot_country_loop cell platform countries).1)).sum,
         acc.2.1 ++ platforms.map (fun platform =>
            ⟨platform, (snapshot_country_loop cell platform countries).1,
              (snapshot_country_loop cell platform countries).2.1⟩),
         acc.2.2 ++ (platforms.map (fun platform =>
            (snapshot_country_loop cell platform countries).2.2)).flatten) := by
  induction platforms with
  | nil => intro acc; simp
  | cons p ps ih =>
    intro acc
    rw [List.foldl_cons, ih]
    simp only [List.map_cons, List.sum_cons, List.flatten_cons, List.append_assoc,
      List.singleton_append]
    exact congrArg₂ _ (by omega) (congrArg₂ _ rfl rfl)

/-! ## Theorems for claim C9 -/

/-- C9: a snapshot run never aborts — for every set of platforms, every
cell behavior (any subset of (platform, country) cells may raise, with any
messages), every exchange-rate outcome and every list of `N` countries, it
returns a summary whose `countries_processed` is `N`; its error list is the
rate-prelude errors followed by exactly one descriptive entry per raising
cell, in loop order; each platform's statistics count the ads of exactly
the non-raising cells; and the total is the sum over platforms. -/
theorem c9_orchestrator_resilience :
    ∀ platforms cell rates countries,
      (collect_current_snapshot platforms cell rates countries).countries_processed
        = countries.length ∧
      (collect_current_snapshot platforms cell rates countries).errors
        = (match rates with
            | .ok _ => ([] : List String)
            | .error e => ["Exchange rate collection failed: " ++ e])
          ++ (platforms.map (fun platform => countries.filterMap (fun c =>
                match cell platform c with
                | .ok _ => none
                | .error e =>
                  some (platform ++ " failed for " ++ c ++ ": " ++ e)))).flatten ∧
      (collect_current_snapshot platforms cell rates countries).platform_stats
        = platforms.map (fun platform =>
            ⟨platform,
             (countries.map (fun c =>
                match cell platform c with
                | .ok ads => ads.length
                | .error _ => 0)).sum,
             (countries.filter (fun c =>
                match cell platform c with
                | .ok ads => !ads.isEmpty
                | .error _ => false)).length⟩) ∧
      (collect_current_snapshot platforms cell rates countries).total_ads_collected
        = (platforms.map (fun platform => (countries.map (fun c =>
            match cell platform c with
            | .ok ads => ads.length
            | .error _ => 0)).sum)).sum := by
  intro platforms cell rates countries
  refine ⟨rfl, ?_, ?_, ?_⟩
  · show (platforms.foldl _ (0, [], _)).2.2 = _
    rw [snapshot_platform_loop_acc]
    simp only [snapshot_country_loop_eq]
  · show (platforms.foldl _ (0, [], _)).2.1 = _
    rw [snapshot_platform_loop_acc]
    simp only [snapshot_country_loop_eq, List.nil_append]
  · show (platforms.foldl _ (0, [], _)).1 = _
    rw [snapshot_platform_loop_acc]
    simp only [snapshot_country_loop_eq, Nat.zero_add]

/-! ## Theorems for claim C10 -/

/-- C10, counterexample: `save_raw_ads` does not leave `payment_methods`
with its post-standardization value — the caller's record's list is
replaced in place by its JSON text. -/
theorem c10_save_mutates_payment_methods :
    ((save_raw_ads
        [binance_standardize_ad "2025-01-01T00:00:00Z"
          ⟨"USDT", "SDG", 1050, 100, 5000, 2500, ["MTN", "Bank Transfer"],
            "trader", 95, 150, "b_1"⟩
          "SD" "SELL"]
        "collection_20250101_000000").map (fun a => a.payment_methods))
      ≠ ([binance_standardize_ad "2025-01-01T00:00:00Z"
          ⟨"USDT", "SDG", 1050, 100, 5000, 2500, ["MTN", "Bank Transfer"],
            "trader", 95, 150, "b_1"⟩
          "SD" "SELL"].map (fun a => a.payment_methods)) := by
  simp [save_raw_ads, save_payment_cell, binance_standardize_ad]

/-- C10 (amended): persisting with `save_raw_ads` changes exactly two
things in each of the caller's records: `collection_id` is written, and
`payment_methods` — a list after standardization — is replaced in place by
its JSON-encoded text; every other field, `premium_pct` included, keeps
its post-standardization value.  (The Premium Calculator's later write of
`premium_pct` is outside `save_raw_ads`.) -/
theorem c10_save_frame :
    ∀ ads cid, List.Forall₂ (fun a b =>
      b.collection_id = some cid ∧
      b.payment_methods = save_payment_cell a.payment_methods ∧
      b.platform = a.platform ∧ b.timestamp = a.timestamp ∧ b.asset = a.asset ∧
      b.fiat = a.fiat ∧ b.price = a.price ∧ b.min_amount = a.min_amount ∧
      b.max_amount = a.max_amount ∧ b.available_amount = a.available_amount ∧
      b.trade_type = a.trade_type ∧ b.country_code = a.country_code ∧
      b.advertiser_name = a.advertiser_name ∧ b.completion_rate = a.completion_rate ∧
      b.order_count = a.order_count ∧ b.ad_id = a.ad_id ∧
      b.premium_pct = a.premium_pct) ads (save_raw_ads ads cid) := by
  intro ads cid
  induction ads with
  | nil => simp [save_raw_ads]
  | cons a ads ih =>
    simp only [save_raw_ads, List.map_cons] at ih ⊢
    exact List.Forall₂.cons
      ⟨rfl, rfl, rfl, rfl, rfl, rfl, rfl, rfl, rfl, rfl, rfl, rfl, rfl, rfl,
        rfl, rfl, rfl⟩ ih


/-! ## Theorems for claim C2 -/

/-- C2, counterexample: the correlation step's emitted `price_change_pct`
is not the mean-based statistic the claim states.  On pre closes
`[100, 200]` and post closes `[300, 100]` the code emits
`(post.iloc[0] − pre.iloc[-1]) / pre.iloc[-1] * 100 = 50`, while the
claimed `(mean(post) − mean(pre)) / mean(pre) * 100` is `100/3 ≠ 50`. -/
theorem c2_mean_formula_false :
    pre_crisis [⟨-2, 100⟩, ⟨-1, 200⟩, ⟨0, 300⟩, ⟨1, 100⟩] 0 = [100, 200] ∧
    post_crisis [⟨-2, 100⟩, ⟨-1, 200⟩, ⟨0, 300⟩, ⟨1, 100⟩] 0 = [300, 100] ∧
    (correlate_crypto [⟨-2, 100⟩, ⟨-1, 200⟩, ⟨0, 300⟩, ⟨1, 100⟩] 0).map
        (fun e => e.price_change_pct) = some (some 50) ∧
    (listMean [(300 : ℚ), 100] - listMean [100, 200]) / listMean [100, 200] * 100
      ≠ 50 := by
  refine ⟨by decide, by decide, ?_, by norm_num [listMean]⟩
  rw [correlate_crypto, if_pos (by decide), if_pos (by decide)]
  simp only [Option.map_some']
  norm_num [pre_crisis, post_crisis, period_data]

/-- C2 (amended): for every crisis event and instrument series, the
correlation step emits, per crypto, `price_change_pct =
(first post-window close − last pre-window close) / last pre-window close
* 100` and a single `volatility = stdev(close) / mean(close) * 100`
computed over the whole ±30-day window — not per-window volatilities, and
no `volatility_change_pct` at all (the emitted record type has no such
slot); when the window is empty nothing is emitted, and when one side of
the window is empty both slots are Python `None`. -/
theorem c2_correlation_step :
    ∀ (series : List PricePoint) (event_date : ℤ),
      (period_data series event_date = [] →
        correlate_crypto series event_date = none) ∧
      (period_data series event_date ≠ [] →
        pre_crisis series event_date = [] ∨ post_crisis series event_date = [] →
        correlate_crypto series event_date
          = some { price_change_pct := none, volatility := none }) ∧
      (pre_crisis series event_date ≠ [] → post_crisis series event_date ≠ [] →
        correlate_crypto series event_date = some
          { price_change_pct := some
              (((post_crisis series event_date).headD 0
                  - (pre_crisis series event_date).getLastD 0)
                / (pre_crisis series event_date).getLastD 0 * 100)
            volatility := some
              (sampleStd ((period_data series event_date).map (fun p => p.close))
                / (listMean ((period_data series event_date).map (fun p => p.close)) : ℚ)
                * 100) }) := by
  intro series event_date
  refine ⟨?_, ?_, ?_⟩
  · intro h
    rw [correlate_crypto, if_neg (by simp [h])]
  · intro hp hpre
    rw [correlate_crypto, if_pos (by simpa [List.length_pos] using hp),
      if_neg (by rcases hpre with h | h <;> simp [h])]
  · intro hpre hpost
    have hp : period_data series event_date ≠ [] := by
      intro h0
      exact hpre (by simp [pre_crisis, h0])
    rw [correlate_crypto, if_pos (by simpa [List.length_pos] using hp),
      if_pos ⟨by simpa [List.length_pos] using hpre,
        by simpa [List.length_pos] using hpost⟩]

/-- Witness for C2: the spec's flat series (100 before, 110 after) — both
windows nonempty, so the step emits the endpoint-based price change (here
`+10%`) and the single whole-window volatility. -/
theorem c2_correlation_step_witness :
    pre_crisis [⟨-1, 100⟩, ⟨0, 110⟩] 0 ≠ [] ∧
    post_crisis [⟨-1, 100⟩, ⟨0, 110⟩] 0 ≠ [] ∧
    correlate_crypto [⟨-1, 100⟩, ⟨0, 110⟩] 0 = some
      { price_change_pct := some
          (((post_crisis [⟨-1, 100⟩, ⟨0, 110⟩] 0).headD 0
              - (pre_crisis [⟨-1, 100⟩, ⟨0, 110⟩] 0).getLastD 0)
            / (pre_crisis [⟨-1, 100⟩, ⟨0, 110⟩] 0).getLastD 0 * 100)
        volatility := some
          (sampleStd ((period_data [⟨-1, 100⟩, ⟨0, 110⟩] 0).map (fun p => p.close))
            / (listMean ((period_data [⟨-1, 100⟩, ⟨0, 110⟩] 0).map (fun p => p.close)) : ℚ)
            * 100) } :=
  ⟨by decide, by decide,
   (c2_correlation_step [⟨-1, 100⟩, ⟨0, 110⟩] 0).2.2 (by decide) (by decide)⟩

end CryptoPipeline
